import Mathlib

/-!
# Verification of `release-discussion-action`

A shallow embedding of `src/index.ts` (and the parts of `src/queries.ts` it
drives).  JavaScript strings are modelled as Lean `String`/`List Char`,
JS `Date` values are modelled as integer day/millisecond offsets (for the
cycle calculator) resp. normalized `(year, month)` pairs (for the month
calculator), and the remote GraphQL store is modelled as an oracle record
whose responses parametrise the reconciler; every remote mutation/query the
reconciler issues is recorded in an explicit call trace.
-/

/-- Milliseconds per day, the constant `24 * 60 * 60 * 1000` from
`getWeekNumber` in `src/index.ts`. -/
def msPerDay : Nat := 24 * 60 * 60 * 1000

/-- Model of `getWeekNumber` (src/index.ts:20-24).  The argument `t` is the
timestamp measured in milliseconds since local midnight of Jan 1 of the
timestamp's own year (the code computes `date - new Date(year, 0, 1)`).
`days = Math.floor(delta/864e5 + 1)` is `t / msPerDay + 1` and
`Math.ceil(days / 7)` is `(days + 6) / 7` in natural division. -/
def getWeekNumber (t : Nat) : Nat :=
  (t / msPerDay + 1 + 6) / 7

/-- Model of `getFirstDayOfWeek` (src/index.ts:26-38), returning the result
as a day offset relative to Jan 1 of `year` (so `0` is Jan 1, `-1` is
Dec 31 of the previous year).  `dayNum` is `new Date(year, 0, 1).getDay()`
(0 = Sunday … 6 = Saturday).  The code starts from Jan 1, subtracts
`dayNum - 1` days whenever `dayNum ≠ 1`, then advances by
`(weekNumber - 1) * 7` days. -/
def getFirstDayOfWeek (weekNumber : Nat) (dayNum : Nat) : Int :=
  (if dayNum = 1 then 0 else 0 - ((dayNum : Int) - 1)) + ((weekNumber : Int) - 1) * 7

/-- Day of the week of Jan 1 of a (proleptic) Gregorian year, 0 = Sunday …
6 = Saturday: the value of `new Date(year, 0, 1).getDay()`.  This is the
classical closed form for the Gregorian calendar; e.g. it yields 1 (Monday)
for 2024 and 0 (Sunday) for 2023. -/
def jan1Dow (year : Nat) : Nat :=
  (1 + 5 * ((year - 1) % 4) + 4 * ((year - 1) % 100) + 6 * ((year - 1) % 400)) % 7

/-- The window-containment property claim C1 asserts of the week cycle:
`from ≤ t < to` where `from`/`to` are computed exactly as `main`
(src/index.ts:74-80) computes them for `granularity = week`, converted to
milliseconds, and `t` is the release timestamp in milliseconds since local
midnight Jan 1 of its year in a year whose Jan 1 falls on weekday `dayNum`. -/
def weekWindowContains (dayNum : Nat) (t : Nat) : Prop :=
  getFirstDayOfWeek (getWeekNumber t) dayNum * (msPerDay : Int) ≤ (t : Int) ∧
  (t : Int) < getFirstDayOfWeek (getWeekNumber t + 1) dayNum * (msPerDay : Int)

instance (dayNum t : Nat) : Decidable (weekWindowContains dayNum t) := by
  unfold weekWindowContains; infer_instance

/-- Model of the JS `Date` constructor's year/month normalization: the
`(getFullYear, getMonth)` pair of `new Date(y, m, 1)` for non-negative
arguments.  A year argument in `0..99` is mapped to `1900 + y`, and a month
argument overflows into the year (`m / 12` extra years, month `m % 12`). -/
def jsDateYM (y m : Nat) : Nat × Nat :=
  let yy := if y ≤ 99 then y + 1900 else y
  (yy + m / 12, m % 12)

/-- Model of `getFirstDayOfMonth` (src/index.ts:40-42): note the parameter
order is `(month, year)` while the body builds `new Date(year, month, 1)`.
The result is the `(fullYear, monthIndex)` of the first-of-month date (the
day component is always 1). -/
def getFirstDayOfMonth (month : Nat) (year : Nat) : Nat × Nat :=
  jsDateYM year month

/-- The window start `from` as computed by `main` for `granularity = month`
(src/index.ts:74-76): the call site passes
`getFirstDayOfMonth(releaseDate.getFullYear(), releaseDate.getMonth())`,
i.e. the release's full year as the `month` argument and the release's
month index as the `year` argument. -/
def monthCycleFrom (releaseYear releaseMonth : Nat) : Nat × Nat :=
  getFirstDayOfMonth releaseYear releaseMonth

/-- The window end `to` as computed by `main` for `granularity = month`
(src/index.ts:78-80): `getFirstDayOfMonth(releaseDate.getFullYear(),
releaseDate.getMonth() + 1)`. -/
def monthCycleTo (releaseYear releaseMonth : Nat) : Nat × Nat :=
  getFirstDayOfMonth releaseYear (releaseMonth + 1)

/-! ## List/string utilities

JS `String.prototype.includes` and the leftmost-match behaviour of
`String.prototype.replace`/`String.prototype.match` are modelled over
`List Char` by `splitOnce`, which splits a list at the first occurrence of
a pattern. -/

/-- Split `l` at the first occurrence of `pat`: returns `some (a, b)` with
`l = a ++ pat ++ b` and `a` of minimal length, or `none` when `pat` does
not occur in `l`. -/
def splitOnce (pat : List Char) : List Char → Option (List Char × List Char)
  | [] => if pat = [] then some ([], []) else none
  | c :: rest =>
    if pat.isPrefixOf (c :: rest) then some ([], (c :: rest).drop pat.length)
    else
      match splitOnce pat rest with
      | some (a, b) => some (c :: a, b)
      | none => none

/-- Model of JS `String.prototype.includes` (substring containment), as used
by `main` to filter search results (src/index.ts:99) and to locate the
release comment (src/index.ts:126). -/
def strIncludes (body sub : String) : Bool :=
  (splitOnce sub.toList body.toList).isSome

theorem splitOnce_some {pat : List Char} : ∀ {l a b : List Char},
    splitOnce pat l = some (a, b) →
    l = a ++ pat ++ b ∧ ∀ x y, l = x ++ pat ++ y → a.length ≤ x.length := by
  intro l
  induction l with
  | nil =>
    intro a b h
    by_cases hp : pat = ([] : List Char)
    · subst hp
      simp only [splitOnce, eq_self_iff_true, if_true, Option.some.injEq, Prod.mk.injEq] at h
      obtain ⟨rfl, rfl⟩ := h
      exact ⟨rfl, fun x y _ => Nat.zero_le _⟩
    · simp [splitOnce, hp] at h
  | cons c rest ih =>
    intro a b h
    rw [splitOnce] at h
    by_cases hp : pat.isPrefixOf (c :: rest) = true
    · rw [if_pos hp] at h
      simp only [Option.some.injEq, Prod.mk.injEq] at h
      obtain ⟨h1, h2⟩ := h
      subst h1; subst h2
      refine ⟨?_, fun x y _ => Nat.zero_le _⟩
      have hpre : pat <+: (c :: rest) := List.isPrefixOf_iff_prefix.mp hp
      have heq := List.prefix_iff_eq_append.mp hpre
      simp only [List.nil_append]
      exact heq.symm
    · rw [if_neg hp] at h
      cases hs : splitOnce pat rest with
      | none => rw [hs] at h; exact absurd h (by simp)
      | some ab =>
        obtain ⟨a', b'⟩ := ab
        rw [hs] at h
        simp only [Option.some.injEq, Prod.mk.injEq] at h
        obtain ⟨h1, h2⟩ := h
        subst h1; subst h2
        obtain ⟨hrest, hmin⟩ := ih hs
        constructor
        · simp [hrest]
        · intro x y hxy
          cases x with
          | nil =>
            exfalso
            apply hp
            apply List.isPrefixOf_iff_prefix.mpr
            simp only [List.nil_append] at hxy
            exact hxy ▸ List.prefix_append pat y
          | cons x0 xs =>
            have htl : rest = xs ++ pat ++ y := by
              have := congrArg List.tail hxy
              simpa using this
            have := hmin xs y htl
            simpa using Nat.succ_le_succ this

theorem splitOnce_of {pat : List Char} : ∀ {a l b : List Char},
    l = a ++ pat ++ b → (∀ x y, l = x ++ pat ++ y → a.length ≤ x.length) →
    splitOnce pat l = some (a, b) := by
  intro a
  induction a with
  | nil =>
    intro l b hl _hmin
    simp only [List.nil_append] at hl
    subst hl
    cases hpb : pat ++ b with
    | nil =>
      obtain ⟨hp, hb⟩ := List.append_eq_nil.mp hpb
      subst hp; subst hb
      simp [splitOnce]
    | cons c rest =>
      rw [splitOnce]
      have hpre : pat <+: (c :: rest) := hpb ▸ List.prefix_append pat b
      rw [if_pos (List.isPrefixOf_iff_prefix.mpr hpre)]
      have : (c :: rest).drop pat.length = b := by
        rw [← hpb, List.drop_left]
      rw [this]
  | cons a0 as ih =>
    intro l b hl hmin
    have hcons : l = a0 :: (as ++ pat ++ b) := by simp [hl]
    rw [hcons, splitOnce]
    have hnp : pat.isPrefixOf (a0 :: (as ++ pat ++ b)) ≠ true := by
      intro hp
      have hpre := List.isPrefixOf_iff_prefix.mp hp
      have heq := List.prefix_iff_eq_append.mp hpre
      have hdec : l = [] ++ pat ++ ((a0 :: (as ++ pat ++ b)).drop pat.length) := by
        rw [hcons]
        simp only [List.nil_append]
        exact heq.symm
      have hle := hmin [] _ hdec
      simp at hle
    rw [if_neg hnp]
    have hres : splitOnce pat (as ++ pat ++ b) = some (as, b) := by
      apply ih rfl
      intro x y hxy
      have := hmin (a0 :: x) y (by simp [hcons, hxy])
      simpa using this
    rw [hres]

theorem splitOnce_none {pat : List Char} : ∀ {l : List Char},
    splitOnce pat l = none → ∀ x y, l ≠ x ++ pat ++ y := by
  intro l
  induction l with
  | nil =>
    intro h x y hxy
    by_cases hp : pat = ([] : List Char)
    · simp [splitOnce, hp] at h
    · have : pat = ([] : List Char) := by
        have := hxy.symm
        rcases List.append_eq_nil.mp (List.append_eq_nil.mp this).1 with ⟨_, h2⟩
        exact h2
      exact hp this
  | cons c rest ih =>
    intro h x y hxy
    rw [splitOnce] at h
    by_cases hp : pat.isPrefixOf (c :: rest) = true
    · rw [if_pos hp] at h; exact absurd h (by simp)
    · rw [if_neg hp] at h
      cases hs : splitOnce pat rest with
      | some ab => rw [hs] at h; exact absurd h (by cases ab; simp)
      | none =>
        cases x with
        | nil =>
          apply hp
          apply List.isPrefixOf_iff_prefix.mpr
          simp only [List.nil_append] at hxy
          exact hxy ▸ List.prefix_append pat y
        | cons x0 xs =>
          have htl : rest = xs ++ pat ++ y := by
            have := congrArg List.tail hxy
            simpa using this
          exact ih hs xs y htl

/-- First-occurrence splitting is stable under replacing everything after
the matched pattern: the leftmost occurrence stays the leftmost one. -/
theorem splitOnce_stable {pat l a b : List Char} (h : splitOnce pat l = some (a, b))
    (c : List Char) : splitOnce pat (a ++ pat ++ c) = some (a, c) := by
  obtain ⟨hl, hmin⟩ := splitOnce_some h
  apply splitOnce_of rfl
  intro x y hxy
  by_contra hlt
  push_neg at hlt
  have hxp : x ++ pat <+: a ++ pat := by
    have h1 : (x ++ pat ++ y).take (x ++ pat).length = x ++ pat := List.take_left _ _
    have h2 : (a ++ pat ++ c).take (x ++ pat).length = (a ++ pat).take (x ++ pat).length := by
      apply List.take_append_of_le_length
      simp only [List.length_append]
      omega
    rw [← hxy] at h1
    rw [h2] at h1
    exact h1 ▸ List.take_prefix _ _
  have hxl : x ++ pat <+: l := by
    rw [hl]
    exact hxp.trans (List.prefix_append _ _)
  obtain ⟨z, hz⟩ := hxl
  have : l = x ++ pat ++ z := by rw [← hz, List.append_assoc]
  have := hmin x z this
  omega

/-! ## Claims C1 and C2: the cycle calculator -/

/-- C1 (counterexample): the containment `from <= t < to` claimed for every
timestamp of a year fails on the code.  In 2023 Jan 1 is a Sunday
(`jan1Dow 2023 = 0`), so `getFirstDayOfWeek` shifts Jan 1 *forward* by one
day (it subtracts `dayNum - 1 = -1` days); for `t` = local midnight of
Jan 8 2023 (day offset 7, a Sunday), `getWeekNumber` yields week 2 whose
computed `from` is day offset 8 (Jan 9), so `from <= t` is violated. -/
theorem c1_week_window_counterexample :
    ¬ weekWindowContains (jan1Dow 2023) (7 * msPerDay) := by
  decide

/-- C1 (amended): for a year whose Jan 1 falls on a Monday the claimed
containment `from <= t < to` does hold for every timestamp `t` of the year,
and for every year the windows of adjacent week numbers are adjacent and
non-overlapping (the start of week `w + 1` — which is exactly the `to` of
week `w` computed by `main` — is the start of week `w` plus 7 days). -/
theorem c1_week_window_amended (year t w : Nat) (hMon : jan1Dow year = 1) :
    weekWindowContains (jan1Dow year) t ∧
    ∀ dn : Nat, getFirstDayOfWeek (w + 1) dn = getFirstDayOfWeek w dn + 7 := by
  constructor
  · unfold weekWindowContains getWeekNumber getFirstDayOfWeek msPerDay
    rw [hMon]
    simp only [if_pos rfl]
    omega
  · intro dn
    unfold getFirstDayOfWeek
    push_cast
    ring

theorem c1_week_window_amended_witness :
    weekWindowContains (jan1Dow 2024) (100 * msPerDay + 12345) ∧
    getFirstDayOfWeek 6 3 = getFirstDayOfWeek 5 3 + 7 := by
  have h := c1_week_window_amended 2024 (100 * msPerDay + 12345) 5 (by decide)
  exact ⟨h.1, h.2 3⟩

/-- C2: the month-granularity window is *not* the release's month.  The
call sites in `main` (src/index.ts:74-80) pass
`getFirstDayOfMonth(releaseDate.getFullYear(), releaseDate.getMonth())`
although the function's parameters are `(month, year)`, so for a release
published 2024-03-14 (`getFullYear() = 2024`, `getMonth() = 2`) the code
builds `new Date(2, 2024, 1)`: the two-digit-year rule maps year 2 to 1902
and the 2024 months overflow into 168 years and 8 months, giving
2070-09-01 as `from` and 2071-09-01 as `to` instead of 2024-03-01 and
2024-04-01. -/
theorem c2_month_window_swapped_args :
    monthCycleFrom 2024 2 = (2070, 8) ∧ monthCycleTo 2024 2 = (2071, 8) ∧
    monthCycleFrom 2024 2 ≠ (2024, 2) ∧ monthCycleTo 2024 2 ≠ (2024, 3) := by
  decide

/-! ## Claim C8: the release-marker codec

`main` extracts release entries with
`comment.body.match(/<!-- release-item:(.*?)@(.*?) -->/)`
(src/index.ts:154) and trims both captures (src/index.ts:157-158).  The
regex is modelled directly: `.` matches any character except a JS line
terminator, the lazy quantifiers take the shortest capture that lets the
rest of the pattern match, and the overall match is the leftmost one. -/

/-- JS regex line terminators (the characters `.` does not match). -/
def jsLineTerm (c : Char) : Bool :=
  c = '\n' || c = '\r' || c = ' ' || c = ' '

/-- The literal tail `" -->"` of the release-marker pattern. -/
def arrowClose : List Char := " -->".toList

/-- The literal head `"<!-- release-item:"` of the release-marker pattern. -/
def markerOpen : List Char := "<!-- release-item:".toList

/-- Lazy match of `(.*?) -->` against `cs`: the capture is the shortest run
of non-line-terminator characters followed by `" -->"`. -/
def matchB : List Char → Option (List Char)
  | [] => none
  | c :: rest =>
    if arrowClose.isPrefixOf (c :: rest) then some []
    else if jsLineTerm c then none
    else (matchB rest).map (fun b => c :: b)

/-- Lazy match of `(.*?)@(.*?) -->` against `cs`: the first capture is the
shortest run of non-line-terminator characters up to an `@` after which
`matchB` succeeds (on failure the `@` itself is backtracked into the first
capture). -/
def matchA : List Char → Option (List Char × List Char)
  | [] => none
  | c :: rest =>
    match (if c = '@' then matchB rest else none) with
    | some b => some ([], b)
    | none =>
      if jsLineTerm c then none
      else
        match matchA rest with
        | some p => some (c :: p.1, p.2)
        | none => none

/-- Leftmost match of the full release-marker pattern
`<!-- release-item:(.*?)@(.*?) -->` over a body, returning the two raw
captured groups. -/
def findReleaseMarker : List Char → Option (List Char × List Char)
  | [] => none
  | c :: rest =>
    match (if markerOpen.isPrefixOf (c :: rest)
           then matchA ((c :: rest).drop markerOpen.length) else none) with
    | some p => some p
    | none => findReleaseMarker rest

/-- The raw captured groups of `body.match(/<!-- release-item:(.*?)@(.*?) -->/)`. -/
def releaseMarkerCaptures (body : String) : Option (String × String) :=
  (findReleaseMarker body.toList).map (fun p => (String.mk p.1, String.mk p.2))

/-- The JS whitespace class `\s` (also the character set `String.prototype.trim`
removes). -/
def jsWhitespace (c : Char) : Bool :=
  c = ' ' || c = '\t' || c = '\n' || c = '\x0b' || c = '\x0c' || c = '\r' ||
  c = ' ' || c = ' ' || (' ' ≤ c && c ≤ ' ') ||
  c = ' ' || c = ' ' || c = ' ' || c = ' ' ||
  c = '　' || c = '﻿'

/-- Model of JS `String.prototype.trim`. -/
def jsTrim (s : String) : String :=
  String.mk (((s.toList.dropWhile jsWhitespace).reverse.dropWhile jsWhitespace).reverse)

/-- Model of `parseReleaseMarker` of the spec (§4.2): the two captures of the
release-marker pattern, trimmed — exactly what the TOC-rebuild loop does
with `match[1].trim()` / `match[2].trim()` (src/index.ts:154-158). -/
def parseReleaseMarker (body : String) : Option (String × String) :=
  (releaseMarkerCaptures body).map (fun p => (jsTrim p.1, jsTrim p.2))

/-- The rendered release marker `"<!-- release-item:{name}@{version} -->"`
(src/index.ts:117-118). -/
def renderReleaseMarker (name version : String) : String :=
  "<!-- release-item:" ++ (name ++ "@" ++ version) ++ " -->"

/-- The closer `" -->"` cannot begin strictly inside `v ++ " -->"` and end inside the
appended `" -->"`: an occurrence starting before the boundary lies wholly
inside `c :: v`. -/
theorem arrowClose_straddle (c : Char) (v : List Char)
    (h : arrowClose.isPrefixOf (c :: (v ++ arrowClose)) = true) :
    arrowClose <:+: (c :: v) := by
  match v with
  | [] => simp [arrowClose, List.isPrefixOf] at h
  | [d1] => simp [arrowClose, List.isPrefixOf] at h
  | [d1, d2] => simp [arrowClose, List.isPrefixOf] at h
  | d1 :: d2 :: d3 :: v' =>
    have hpre := List.isPrefixOf_iff_prefix.mp h
    have heq := List.prefix_iff_eq_take.mp hpre
    have hlen : arrowClose.length ≤ (c :: d1 :: d2 :: d3 :: v').length := by
      simp [arrowClose]
    have htk : (c :: ((d1 :: d2 :: d3 :: v') ++ arrowClose)).take arrowClose.length
        = (c :: d1 :: d2 :: d3 :: v').take arrowClose.length := by
      have : c :: ((d1 :: d2 :: d3 :: v') ++ arrowClose)
          = (c :: d1 :: d2 :: d3 :: v') ++ arrowClose := by simp
      rw [this, List.take_append_of_le_length hlen]
    rw [htk] at heq
    exact (heq ▸ List.take_prefix _ _ : arrowClose <+: _).isInfix

/-- Running `matchB` on a line-terminator-free capture followed by the literal
closer recovers the capture, provided the capture does not itself contain
`" -->"`. -/
theorem matchB_append (v : List Char) (hv : ∀ c ∈ v, jsLineTerm c = false)
    (hinf : ¬ arrowClose <:+: v) : matchB (v ++ arrowClose) = some v := by
  induction v with
  | nil =>
    show matchB arrowClose = some []
    rfl
  | cons c v' ih =>
    have hnp : arrowClose.isPrefixOf (c :: (v' ++ arrowClose)) ≠ true := by
      intro hp
      exact hinf (arrowClose_straddle c v' hp)
    have hc : jsLineTerm c = false := hv c (by simp)
    have hv' : ∀ d ∈ v', jsLineTerm d = false := fun d hd => hv d (by simp [hd])
    have hinf' : ¬ arrowClose <:+: v' := by
      intro hi
      exact hinf (List.infix_cons hi)
    rw [List.cons_append, matchB, if_neg hnp, hc]
    simp only [Bool.false_eq_true, if_false]
    rw [ih hv' hinf']
    rfl

/-- Running `matchA` on `name ++ '@' :: rest`: when the name contains no `@` and no
line terminator, the lazy first capture is exactly the name. -/
theorem matchA_append (a : List Char) (rest b : List Char)
    (ha1 : '@' ∉ a) (ha2 : ∀ c ∈ a, jsLineTerm c = false)
    (hB : matchB rest = some b) :
    matchA (a ++ '@' :: rest) = some (a, b) := by
  induction a with
  | nil =>
    simp only [List.nil_append]
    rw [matchA, if_pos rfl, hB]
  | cons c a' ih =>
    have hc : c ≠ '@' := by
      intro h; exact ha1 (by simp [h])
    have hlt : jsLineTerm c = false := ha2 c (by simp)
    have ha1' : '@' ∉ a' := fun h => ha1 (by simp [h])
    have ha2' : ∀ d ∈ a', jsLineTerm d = false := fun d hd => ha2 d (by simp [hd])
    rw [List.cons_append, matchA, if_neg hc]
    simp only [hlt, Bool.false_eq_true, if_false]
    rw [ih ha1' ha2']

theorem strMk_toList (s : String) : String.mk s.toList = s := by
  cases s; rfl

theorem renderReleaseMarker_toList (name version : String) :
    (renderReleaseMarker name version).toList
      = markerOpen ++ (name.toList ++ '@' :: (version.toList ++ arrowClose)) := by
  simp [renderReleaseMarker, markerOpen, arrowClose]

/-- When the body starts with the literal pattern head and the lazy inner
match succeeds there, the leftmost regex match is at position 0. -/
theorem findReleaseMarker_of_head (l tail : List Char) (p : List Char × List Char)
    (hl : l = markerOpen ++ tail) (hA : matchA tail = some p) :
    findReleaseMarker l = some p := by
  subst hl
  have hshape : markerOpen ++ tail = '<' :: ("!-- release-item:".toList ++ tail) := by
    simp [markerOpen]
  rw [hshape, findReleaseMarker]
  have hpre : markerOpen.isPrefixOf ('<' :: ("!-- release-item:".toList ++ tail)) = true := by
    rw [← hshape]
    exact List.isPrefixOf_iff_prefix.mpr (List.prefix_append _ _)
  rw [if_pos hpre]
  have hdrop : ('<' :: ("!-- release-item:".toList ++ tail)).drop markerOpen.length = tail := by
    rw [← hshape, List.drop_left]
  rw [hdrop, hA]

/-- C8: for names and versions free of `@`, of line terminators, of the
literal `" -->"` closer (in the version) and of surrounding whitespace,
parsing the rendered release marker with the release-marker pattern
recovers exactly the name and version. -/
theorem c8_marker_roundtrip (name version : String)
    (hn1 : '@' ∉ name.toList) (hv1 : '@' ∉ version.toList)
    (hn2 : ∀ c ∈ name.toList, jsLineTerm c = false)
    (hv2 : ∀ c ∈ version.toList, jsLineTerm c = false)
    (hv3 : ¬ arrowClose <:+: version.toList)
    (hn3 : jsTrim name = name) (hv4 : jsTrim version = version) :
    parseReleaseMarker (renderReleaseMarker name version) = some (name, version) := by
  have hB : matchB (version.toList ++ arrowClose) = some version.toList :=
    matchB_append _ hv2 hv3
  have hA : matchA (name.toList ++ '@' :: (version.toList ++ arrowClose))
      = some (name.toList, version.toList) :=
    matchA_append _ _ _ hn1 hn2 hB
  have hF : findReleaseMarker ((renderReleaseMarker name version).toList)
      = some (name.toList, version.toList) := by
    rw [renderReleaseMarker_toList]
    exact findReleaseMarker_of_head _ _ _ rfl hA
  unfold parseReleaseMarker releaseMarkerCaptures
  rw [hF]
  simp only [Option.map_some']
  rw [strMk_toList, strMk_toList, hn3, hv4]

theorem c8_marker_roundtrip_witness :
    parseReleaseMarker (renderReleaseMarker "mypkg" "v1.2.0") = some ("mypkg", "v1.2.0") :=
  c8_marker_roundtrip "mypkg" "v1.2.0" (by decide) (by decide) (by decide) (by decide)
    (by decide) (by decide) (by decide)

/-! ## Claim C6: splicing the TOC region

`main` rebuilds the discussion body with
`discussion.body.replace(/(<!-- START-RELEASE-TOC -->)[\s\S]*?(<!-- END-RELEASE-TOC -->)/, `$1\n{tocMarkdown}\n$2`)`
(src/index.ts:180-181).  `[\s\S]*?` is lazy and matches any character, so
the matched region runs from the first start sentinel (provided an end
sentinel follows it) to the first end sentinel after it.  The replacement
string is subject to ECMAScript `GetSubstitution` processing of `$`
escapes, which the model implements (`$$`, `$&`, the backquote and quote
forms, `$n`/`$nn` with the two capture groups of this regex being the two
sentinels). -/

/-- The TOC region start sentinel. -/
def startSentinel : List Char := "<!-- START-RELEASE-TOC -->".toList

/-- The TOC region end sentinel. -/
def endSentinel : List Char := "<!-- END-RELEASE-TOC -->".toList

/-- Expansion of a `$` escape occurring at the very end of the replacement
string, with exactly one character after the `$` (`'\x60'` is the backquote,
`'\x27'` the single quote). -/
def expandLastEsc (whole before after : List Char) (d : Char) : List Char :=
  if d = '$' then ['$']
  else if d = '&' then whole
  else if d = '\x60' then before
  else if d = '\x27' then after
  else if d.isDigit then
    if d.toNat - 48 = 1 then startSentinel
    else if d.toNat - 48 = 2 then endSentinel
    else ['$', d]
  else ['$', d]

def expandRepl (whole before after : List Char) : List Char → List Char
  | [] => []
  | ['$'] => ['$']
  | ['$', d] => expandLastEsc whole before after d
  | '$' :: d :: e :: rest3 =>
    if d = '$' then '$' :: expandRepl whole before after (e :: rest3)
    else if d = '&' then whole ++ expandRepl whole before after (e :: rest3)
    else if d = '\x60' then before ++ expandRepl whole before after (e :: rest3)
    else if d = '\x27' then after ++ expandRepl whole before after (e :: rest3)
    else if d.isDigit then
      if e.isDigit then
        if (d.toNat - 48) * 10 + (e.toNat - 48) = 1 then
          startSentinel ++ expandRepl whole before after rest3
        else if (d.toNat - 48) * 10 + (e.toNat - 48) = 2 then
          endSentinel ++ expandRepl whole before after rest3
        else '$' :: d :: e :: expandRepl whole before after rest3
      else
        if d.toNat - 48 = 1 then startSentinel ++ expandRepl whole before after (e :: rest3)
        else if d.toNat - 48 = 2 then endSentinel ++ expandRepl whole before after (e :: rest3)
        else '$' :: d :: expandRepl whole before after (e :: rest3)
    else '$' :: d :: expandRepl whole before after (e :: rest3)
  | c :: rest => c :: expandRepl whole before after rest

/-- Model of the TOC splice (src/index.ts:180-181). -/
def replaceTocRegion (body toc : String) : String :=
  match splitOnce startSentinel body.toList with
  | none => body
  | some (pre, rest) =>
    match splitOnce endSentinel rest with
    | none => body
    | some (interior, post) =>
      let whole := startSentinel ++ interior ++ endSentinel
      let repl := expandRepl whole pre post
        ('$' :: '1' :: '\n' :: (toc.toList ++ '\n' :: '$' :: '2' :: []))
      String.mk (pre ++ repl ++ post)

theorem strToList_mk (l : List Char) : (String.mk l).toList = l := rfl

theorem expandRepl_step (w b a : List Char) (c : Char) (X : List Char) (hc : c ≠ '$') :
    expandRepl w b a (c :: X) = c :: expandRepl w b a X := by
  match X with
  | [] => simp [expandRepl, hc]
  | [d] => simp [expandRepl, hc]
  | d :: e :: r => simp [expandRepl, hc]

theorem expandRepl_copy (w b a cs tail : List Char) (h : '$' ∉ cs) :
    expandRepl w b a (cs ++ tail) = cs ++ expandRepl w b a tail := by
  induction cs with
  | nil => simp
  | cons c cs' ih =>
    have hc : c ≠ '$' := fun hh => h (by simp [hh])
    rw [List.cons_append, expandRepl_step w b a c _ hc,
      ih (fun hh => h (by simp [hh]))]
    rfl

/-- The concrete replacement template `$1\n{toc}\n$2` expands to
start sentinel, newline, the literal TOC, newline, end sentinel — provided
the TOC text contains no `$`. -/
theorem expandRepl_template (w b a : List Char) (toc : List Char) (h : '$' ∉ toc) :
    expandRepl w b a ('$' :: '1' :: '\n' :: (toc ++ '\n' :: '$' :: '2' :: []))
      = startSentinel ++ '\n' :: (toc ++ '\n' :: endSentinel) := by
  have h1 : expandRepl w b a ('$' :: '1' :: '\n' :: (toc ++ '\n' :: '$' :: '2' :: []))
      = startSentinel ++ expandRepl w b a ('\n' :: (toc ++ '\n' :: '$' :: '2' :: [])) := by
    simp [expandRepl]
  have h2 : expandRepl w b a ('\n' :: '$' :: '2' :: []) = '\n' :: (endSentinel ++ []) := by
    simp [expandRepl, expandLastEsc]
  rw [h1, expandRepl_step w b a '\n' _ (by decide),
    expandRepl_copy w b a toc _ h, h2]
  simp

theorem mem_of_getElem?_eq_some {l : List Char} {n : Nat} {a : Char}
    (h : l[n]? = some a) : a ∈ l := by
  obtain ⟨hlt, hget⟩ := List.getElem?_eq_some.mp h
  exact hget ▸ List.getElem_mem hlt

/-- In `"\n" ++ toc ++ "\n" ++ endSentinel ++ post` (the region produced by
one application of the splice), the first occurrence of the end sentinel is
the explicit one: it cannot start at the leading newline (it starts with
`<`), cannot cross either newline (it contains none), and cannot sit inside
`toc` (hypothesis). -/
theorem splitOnce_end_pad (toc post : List Char) (h : ¬ endSentinel <:+: toc) :
    splitOnce endSentinel ('\n' :: (toc ++ '\n' :: (endSentinel ++ post)))
      = some ('\n' :: toc ++ ['\n'], post) := by
  apply splitOnce_of
  · simp
  · intro x y hxy
    by_contra hlt
    push_neg at hlt
    rcases x with _ | ⟨x0, x'⟩
    · rw [List.nil_append] at hxy
      rw [show endSentinel = '<' :: "!-- END-RELEASE-TOC -->".toList from rfl] at hxy
      simp at hxy
    · have hx0 : x0 = '\n' := by
        have hh := congrArg List.head? hxy
        simpa using hh.symm
      subst hx0
      have htail : toc ++ '\n' :: (endSentinel ++ post) = x' ++ endSentinel ++ y := by
        have hh := congrArg List.tail hxy
        simpa using hh
      simp at hlt
      by_cases hcase : x'.length + endSentinel.length ≤ toc.length
      · apply h
        have htake := congrArg (fun l => l.take (x'.length + endSentinel.length)) htail
        simp only at htake
        rw [List.take_append_of_le_length hcase] at htake
        have htake2 : (x' ++ endSentinel ++ y).take (x'.length + endSentinel.length)
            = x' ++ endSentinel := by
          rw [← List.length_append, List.take_left]
        rw [htake2] at htake
        have hpre : x' ++ endSentinel <+: toc := htake ▸ List.take_prefix _ _
        obtain ⟨z, hz⟩ := hpre
        exact ⟨x', z, by rw [← hz, List.append_assoc]⟩
      · push_neg at hcase
        have hxlen : x'.length ≤ toc.length := by omega
        have hL : (toc ++ '\n' :: (endSentinel ++ post))[toc.length]? = some '\n' := by
          rw [List.getElem?_append_right (le_refl _)]
          simp
        have hR : (x' ++ endSentinel ++ y)[toc.length]?
            = endSentinel[toc.length - x'.length]? := by
          rw [List.append_assoc, List.getElem?_append_right hxlen,
            List.getElem?_append_left (by omega)]
        rw [htail, hR] at hL
        exact absurd (mem_of_getElem?_eq_some hL) (by decide)

theorem replaceTocRegion_none1 (body toc : String)
    (hs : splitOnce startSentinel body.toList = none) :
    replaceTocRegion body toc = body := by
  simp only [replaceTocRegion, hs]

theorem replaceTocRegion_none2 (body toc : String) (pre rest : List Char)
    (hs : splitOnce startSentinel body.toList = some (pre, rest))
    (he : splitOnce endSentinel rest = none) :
    replaceTocRegion body toc = body := by
  simp only [replaceTocRegion, hs, he]

theorem replaceTocRegion_some (body toc : String) (pre rest interior post : List Char)
    (hs : splitOnce startSentinel body.toList = some (pre, rest))
    (he : splitOnce endSentinel rest = some (interior, post)) (hd : '$' ∉ toc.toList) :
    replaceTocRegion body toc
      = String.mk (pre ++ (startSentinel ++ '\n' :: (toc.toList ++ '\n' :: endSentinel)) ++ post) := by
  simp only [replaceTocRegion, hs, he]
  rw [expandRepl_template _ _ _ _ hd]

/-- C6 (counterexample): splicing is *not* idempotent for arbitrary TOC
content.  With a TOC equal to the end sentinel itself, the first splice
puts an end sentinel inside the region, so the second splice matches a
shorter region and grows the body. -/
theorem c6_replace_toc_counterexample :
    replaceTocRegion
        (replaceTocRegion "<!-- START-RELEASE-TOC -->x<!-- END-RELEASE-TOC -->"
          "<!-- END-RELEASE-TOC -->")
        "<!-- END-RELEASE-TOC -->"
      ≠ replaceTocRegion "<!-- START-RELEASE-TOC -->x<!-- END-RELEASE-TOC -->"
          "<!-- END-RELEASE-TOC -->" := by
  decide

/-- C6 (amended): provided the TOC text contains no `$` (which the ECMA
replacement-string processing would expand) and does not contain the end
sentinel, the splice (1) replaces exactly the interior of the first
sentinel-delimited region with newline + TOC + newline, keeping the
sentinels and everything outside byte-for-byte; (2) returns the body
unchanged when no sentinel pair is present; and (3) is idempotent. -/
theorem c6_replace_toc (body toc : String) (hd : '$' ∉ toc.toList)
    (hend : ¬ endSentinel <:+: toc.toList) :
    (∀ pre rest interior post,
        splitOnce startSentinel body.toList = some (pre, rest) →
        splitOnce endSentinel rest = some (interior, post) →
        (replaceTocRegion body toc).toList
          = pre ++ startSentinel ++ '\n' :: (toc.toList ++ '\n' :: (endSentinel ++ post))) ∧
    ((¬ ∃ pre interior post,
        body.toList = pre ++ (startSentinel ++ (interior ++ (endSentinel ++ post)))) →
      replaceTocRegion body toc = body) ∧
    replaceTocRegion (replaceTocRegion body toc) toc = replaceTocRegion body toc := by
  refine ⟨?_, ?_, ?_⟩
  · intro pre rest interior post hs he
    rw [replaceTocRegion_some body toc pre rest interior post hs he hd, strToList_mk]
    simp [List.append_assoc]
  · intro hno
    cases hs : splitOnce startSentinel body.toList with
    | none => exact replaceTocRegion_none1 body toc hs
    | some pr =>
      obtain ⟨pre, rest⟩ := pr
      cases he2 : splitOnce endSentinel rest with
      | none => exact replaceTocRegion_none2 body toc pre rest hs he2
      | some ip =>
        obtain ⟨interior, post⟩ := ip
        exfalso
        apply hno
        obtain ⟨h1, -⟩ := splitOnce_some hs
        obtain ⟨h2, -⟩ := splitOnce_some he2
        refine ⟨pre, interior, post, ?_⟩
        rw [h1, h2]
        simp [List.append_assoc]
  · cases hs : splitOnce startSentinel body.toList with
    | none =>
      rw [replaceTocRegion_none1 body toc hs]
      exact replaceTocRegion_none1 body toc hs
    | some pr =>
      obtain ⟨pre, rest⟩ := pr
      cases he2 : splitOnce endSentinel rest with
      | none =>
        rw [replaceTocRegion_none2 body toc pre rest hs he2]
        exact replaceTocRegion_none2 body toc pre rest hs he2
      | some ip =>
        obtain ⟨interior, post⟩ := ip
        have hrep := replaceTocRegion_some body toc pre rest interior post hs he2 hd
        have hlist : (replaceTocRegion body toc).toList
            = pre ++ startSentinel ++ ('\n' :: (toc.toList ++ '\n' :: (endSentinel ++ post))) := by
          rw [hrep, strToList_mk]
          simp [List.append_assoc]
        have hs2 : splitOnce startSentinel (replaceTocRegion body toc).toList
            = some (pre, '\n' :: (toc.toList ++ '\n' :: (endSentinel ++ post))) := by
          rw [hlist]
          exact splitOnce_stable hs _
        have he3 : splitOnce endSentinel ('\n' :: (toc.toList ++ '\n' :: (endSentinel ++ post)))
            = some ('\n' :: toc.toList ++ ['\n'], post) :=
          splitOnce_end_pad _ _ hend
        rw [replaceTocRegion_some _ toc pre _ _ post hs2 he3 hd, hrep]

theorem c6_replace_toc_witness :
    replaceTocRegion
        (replaceTocRegion "<!-- START-RELEASE-TOC -->x<!-- END-RELEASE-TOC -->" "**Releases**")
        "**Releases**"
      = replaceTocRegion "<!-- START-RELEASE-TOC -->x<!-- END-RELEASE-TOC -->" "**Releases**" :=
  (c6_replace_toc "<!-- START-RELEASE-TOC -->x<!-- END-RELEASE-TOC -->" "**Releases**"
    (by decide) (by decide)).2.2

/-! ## Claim C5: rendering the TOC block

`main` (src/index.ts:149-177) accumulates parsed release entries into the
plain object `releases` keyed by name, then emits one bullet per entry,
iterating `Object.keys(releases).sort()` in order and each key's array in
push order.  The object is modelled as an association list in key-insertion
order; since the keys are pairwise distinct, `Object.keys(...).sort()` (the
default comparator orders strings by UTF-16 code units) is the unique
sorted arrangement of the keys, modelled with an insertion sort. -/

/-- A discussion comment as fetched from the store (`{id, body, url}`). -/
structure Comment where
  id : String
  body : String
  url : String
deriving DecidableEq

/-- One entry of the `releases` accumulation (src/index.ts:161-166). -/
structure TocEntry where
  id : String
  name : String
  version : String
  url : String
deriving DecidableEq

/-- One iteration of the entry-extraction loop (src/index.ts:153-167): a
comment contributes an entry iff its body matches the release-marker
pattern; both captures are trimmed. -/
def parseEntry (c : Comment) : Option TocEntry :=
  (releaseMarkerCaptures c.body).map (fun p => ⟨c.id, jsTrim p.1, jsTrim p.2, c.url⟩)

def tocEntries (comments : List Comment) : List TocEntry :=
  comments.filterMap parseEntry

/-- The *successful* case of the `releases` object update for one entry
(src/index.ts:160-166): when `e.name` is already an own key of the object,
`releases[name].push(...)` appends to that key's array; when it is a fresh
key not inherited from `Object.prototype`, `releases[name] ??= []` creates
it and the push appends.  The throwing case — the name collides with an
inherited prototype property — is carried by `insertEntry?` below, which is
what the loop model uses. -/
def insertEntry (rs : List (String × List TocEntry)) (e : TocEntry) :
    List (String × List TocEntry) :=
  match rs with
  | [] => [(e.name, [e])]
  | (n, es) :: rest =>
    if n = e.name then (n, es ++ [e]) :: rest else (n, es) :: insertEntry rest e

/-- The own property names of `Object.prototype` (ECMAScript §20.2.3 plus
the Annex B `__defineGetter__`-family and the `__proto__` accessor).  For a
plain object literal with none of these as own keys, reading `obj[name]`
for such a name yields the inherited value — a function, or the prototype
object itself for `__proto__` — which is non-nullish. -/
def protoProps : List String :=
  ["constructor", "hasOwnProperty", "isPrototypeOf", "propertyIsEnumerable",
   "toLocaleString", "toString", "valueOf", "__defineGetter__",
   "__defineSetter__", "__lookupGetter__", "__lookupSetter__", "__proto__"]

/-- One full iteration of the accumulation-loop body
`releases[name] ??= []; releases[name].push(entry)` (src/index.ts:160-166),
including its error behaviour.  Property lookup consults own keys first
(the association list); with no own key and a name inherited from
`Object.prototype`, `releases[name]` is non-nullish, so `??=` skips its
assignment and the subsequent `.push` call throws `TypeError` (modelled as
`none`), which `main`'s catch turns into `setFailed`. -/
def insertEntry? (rs : List (String × List TocEntry)) (e : TocEntry) :
    Option (List (String × List TocEntry)) :=
  if (rs.find? (fun p => p.1 == e.name)).isSome then some (insertEntry rs e)
  else if e.name ∈ protoProps then none
  else some (insertEntry rs e)

def buildReleases (comments : List Comment) : List (String × List TocEntry) :=
  (tocEntries comments).foldl insertEntry []

/-- The array `releases[name]` (empty when the key is absent). -/
def lookupGroup (rs : List (String × List TocEntry)) (n : String) : List TocEntry :=
  match rs.find? (fun p => p.1 == n) with
  | some p => p.2
  | none => []

/-- UTF-16 code units of a character (JS compares strings code unit by
code unit). -/
def utf16Units (c : Char) : List Nat :=
  if c.toNat < 65536 then [c.toNat]
  else [55296 + (c.toNat - 65536) / 1024, 56320 + (c.toNat - 65536) % 1024]

def strUnits (s : String) : List Nat :=
  s.toList.flatMap utf16Units

/-- Model of `Object.keys(releases).sort()` (src/index.ts:171). -/
def sortKeys (names : List String) : List String :=
  List.insertionSort (fun x y => strUnits x ≤ strUnits y) names

/-- A TOC bullet `- [**{name}**: {version}]({url})` (src/index.ts:173). -/
def bullet (e : TocEntry) : String :=
  "- [**" ++ e.name ++ "**: " ++ e.version ++ "](" ++ e.url ++ ")"

/-- The `tocLines` array after the loops of src/index.ts:169-175. -/
def tocLines (comments : List Comment) : List String :=
  "**Releases**\n" ::
    (sortKeys ((buildReleases comments).map Prod.fst)).flatMap
      (fun n => (lookupGroup (buildReleases comments) n).map bullet)

/-- Model of `tocMarkdown` (src/index.ts:177): `tocLines.join("\n").trim()`.
This is the value the loop produces *when it completes*; the fallible
pipeline below (`tocMarkdown?`) is what the reconciler runs. -/
def tocMarkdown (comments : List Comment) : String :=
  jsTrim (String.intercalate "\n" (tocLines comments))

/-- The accumulation loop of src/index.ts:153-167, entry by entry; `none`
when an iteration throws the prototype-collision `TypeError`. -/
def runReleasesLoop :
    List (String × List TocEntry) → List TocEntry →
    Option (List (String × List TocEntry))
  | acc, [] => some acc
  | acc, e :: es =>
    match insertEntry? acc e with
    | some acc2 => runReleasesLoop acc2 es
    | none => none

/-- The `releases` accumulation with its error behaviour. -/
def buildReleases? (comments : List Comment) :
    Option (List (String × List TocEntry)) :=
  runReleasesLoop [] (tocEntries comments)

/-- The rendered TOC lines (src/index.ts:149-175), `none` when the
accumulation loop throws. -/
def tocLines? (comments : List Comment) : Option (List String) :=
  (buildReleases? comments).map (fun rs =>
    "**Releases**\n" ::
      (sortKeys (rs.map Prod.fst)).flatMap (fun n => (lookupGroup rs n).map bullet))

/-- The rendered TOC markdown (src/index.ts:149-177), `none` when the
accumulation loop throws. -/
def tocMarkdown? (comments : List Comment) : Option String :=
  (tocLines? comments).map (fun ls => jsTrim (String.intercalate "\n" ls))

/-- First-occurrence deduplication, keeping original order. -/
def distinctNames : List String → List String
  | [] => []
  | n :: rest => n :: distinctNames (rest.filter (fun m => m != n))
termination_by l => l.length
decreasing_by
  simp only [List.length_cons]
  exact Nat.lt_succ_of_le (List.length_filter_le _ _)

/-- Spec-side definition of the TOC block, following the words of §4.2
`renderTocBlock`: the header line, then one bullet per parsed release,
grouped by name, groups in ascending name order, entries within a group in
their original store order. -/
def specTocLines (comments : List Comment) : List String :=
  "**Releases**\n" ::
    (sortKeys (distinctNames ((tocEntries comments).map TocEntry.name))).flatMap
      (fun n => ((tocEntries comments).filter (fun e => e.name == n)).map bullet)

theorem lookupGroup_insertEntry (rs : List (String × List TocEntry)) (e : TocEntry) (n : String) :
    lookupGroup (insertEntry rs e) n
      = lookupGroup rs n ++ (if e.name = n then [e] else []) := by
  induction rs with
  | nil =>
    by_cases he : e.name = n
    · simp [insertEntry, lookupGroup, List.find?, he]
    · have h1 : (e.name == n) = false := by simpa using he
      simp [insertEntry, lookupGroup, List.find?, he, h1]
  | cons p rest ih =>
    obtain ⟨m, es⟩ := p
    by_cases hm : m = e.name
    · by_cases hn : m = n
      · have hen : e.name = n := hm.symm.trans hn
        simp [insertEntry, lookupGroup, List.find?, hm, hen]
      · have hen : ¬ e.name = n := fun hh => hn (hm.trans hh)
        have h1 : (e.name == n) = false := by simpa using hen
        simp [insertEntry, lookupGroup, List.find?, hm, h1, hen]
    · by_cases hn : m = n
      · have hen : ¬ e.name = n := fun hh => hm (hn.trans hh.symm)
        have h1 : ((m : String) == n) = true := by simpa using hn
        simp [insertEntry, lookupGroup, List.find?, hm, h1, hen]
      · have h1 : ((m : String) == n) = false := by simpa using hn
        simp only [insertEntry, if_neg hm, lookupGroup, List.find?, h1]
        simpa [lookupGroup] using ih

theorem lookupGroup_foldl (es : List TocEntry) :
    ∀ (acc : List (String × List TocEntry)) (n : String),
    lookupGroup (es.foldl insertEntry acc) n
      = lookupGroup acc n ++ es.filter (fun e => e.name == n) := by
  induction es with
  | nil => intro acc n; simp
  | cons e es ih =>
    intro acc n
    rw [List.foldl_cons, ih (insertEntry acc e) n, lookupGroup_insertEntry]
    by_cases he : e.name = n
    · have h1 : (e.name == n) = true := by simpa using he
      simp [he, h1, List.filter_cons]
    · have h1 : (e.name == n) = false := by simpa using he
      simp [he, h1, List.filter_cons]

theorem keys_insertEntry (rs : List (String × List TocEntry)) (e : TocEntry) :
    (insertEntry rs e).map Prod.fst
      = if e.name ∈ rs.map Prod.fst then rs.map Prod.fst
        else rs.map Prod.fst ++ [e.name] := by
  induction rs with
  | nil => simp [insertEntry]
  | cons p rest ih =>
    obtain ⟨m, es⟩ := p
    by_cases hm : m = e.name
    · have : e.name ∈ (⟨m, es⟩ :: rest : List (String × List TocEntry)).map Prod.fst := by
        simp [hm.symm]
      simp [insertEntry, hm, this]
    · have hne : ¬ e.name = m := fun hh => hm hh.symm
      by_cases hmem : e.name ∈ rest.map Prod.fst
      · simp [insertEntry, hm, ih, hmem, hne]
      · simp [insertEntry, hm, ih, hmem, hne]

theorem distinctNames_cons (n : String) (rest : List String) :
    distinctNames (n :: rest) = n :: distinctNames (rest.filter (fun m => m != n)) := by
  rw [distinctNames.eq_def]

theorem keys_foldl (es : List TocEntry) :
    ∀ (acc : List (String × List TocEntry)),
    (es.foldl insertEntry acc).map Prod.fst
      = acc.map Prod.fst
        ++ distinctNames ((es.map TocEntry.name).filter
              (fun n => decide (n ∉ acc.map Prod.fst))) := by
  induction es with
  | nil => intro acc; simp [distinctNames]
  | cons e es ih =>
    intro acc
    rw [List.foldl_cons, ih (insertEntry acc e), keys_insertEntry]
    by_cases hin : e.name ∈ acc.map Prod.fst
    · have h1 : (decide (e.name ∉ acc.map Prod.fst)) = false := by simpa using hin
      simp only [if_pos hin, List.map_cons, List.filter_cons, h1]
      simp
    · have h1 : (decide (e.name ∉ acc.map Prod.fst)) = true := by simpa using hin
      rw [if_neg hin]
      simp only [List.map_cons, List.filter_cons, h1, if_true]
      rw [distinctNames_cons]
      have hpred : ∀ n,
          (decide (n ∉ acc.map Prod.fst ++ [e.name]))
            = ((n != e.name) && decide (n ∉ acc.map Prod.fst)) := by
        intro n
        by_cases h2 : n = e.name <;> by_cases h3 : n ∈ acc.map Prod.fst <;>
          simp [h2, h3]
      have hff :
          ((es.map TocEntry.name).filter (fun n => decide (n ∉ acc.map Prod.fst))).filter
              (fun m => m != e.name)
            = (es.map TocEntry.name).filter
                (fun n => decide (n ∉ acc.map Prod.fst ++ [e.name])) := by
        rw [List.filter_filter]
        exact List.filter_congr (fun x _ => (hpred x).symm)
      rw [hff]
      simp [List.append_assoc]

theorem insertEntry?_of_safe (acc : List (String × List TocEntry)) (e : TocEntry)
    (he : e.name ∉ protoProps) :
    insertEntry? acc e = some (insertEntry acc e) := by
  unfold insertEntry?
  by_cases hk : ((acc.find? (fun p => p.1 == e.name)).isSome : Prop)
  · rw [if_pos hk]
  · rw [if_neg hk, if_neg he]

theorem runReleasesLoop_of_safe (es : List TocEntry) :
    ∀ acc, (∀ e ∈ es, e.name ∉ protoProps) →
    runReleasesLoop acc es = some (es.foldl insertEntry acc) := by
  induction es with
  | nil => intro acc _; rfl
  | cons e es ih =>
    intro acc hsafe
    rw [runReleasesLoop, insertEntry?_of_safe acc e (hsafe e (by simp))]
    exact ih (insertEntry acc e) (fun x hx => hsafe x (by simp [hx]))

theorem tocLines?_of_safe (comments : List Comment)
    (hsafe : ∀ e ∈ tocEntries comments, e.name ∉ protoProps) :
    tocLines? comments = some (tocLines comments) := by
  unfold tocLines? buildReleases?
  rw [runReleasesLoop_of_safe _ _ hsafe]
  rfl

theorem tocMarkdown?_of_safe (comments : List Comment)
    (hsafe : ∀ e ∈ tocEntries comments, e.name ∉ protoProps) :
    tocMarkdown? comments = some (tocMarkdown comments) := by
  unfold tocMarkdown?
  rw [tocLines?_of_safe comments hsafe]
  rfl

/-- When the accumulation loop completes, the rendered TOC lines are the
header followed by one bullet per comment with a parseable release marker
(others silently ignored), grouped by name with groups in ascending name
order and original relative order inside each group, and the emitted group
order is sorted by UTF-16 code-unit comparison. -/
theorem tocLines_eq_specTocLines (comments : List Comment) :
    tocLines comments = specTocLines comments ∧
    List.Sorted (fun x y : String => strUnits x ≤ strUnits y)
      (sortKeys ((buildReleases comments).map Prod.fst)) := by
  constructor
  · have hkeys : (buildReleases comments).map Prod.fst
        = distinctNames ((tocEntries comments).map TocEntry.name) := by
      have h := keys_foldl (tocEntries comments) []
      simpa [buildReleases] using h
    have hgroup : ∀ n, lookupGroup (buildReleases comments) n
        = (tocEntries comments).filter (fun e => e.name == n) := by
      intro n
      have h := lookupGroup_foldl (tocEntries comments) [] n
      simpa [buildReleases, lookupGroup, List.find?] using h
    unfold tocLines specTocLines
    rw [hkeys]
    have hfun : (fun n => (lookupGroup (buildReleases comments) n).map bullet)
        = (fun n => ((tocEntries comments).filter (fun e => e.name == n)).map bullet) := by
      funext n
      rw [hgroup n]
    rw [hfun]
  · haveI h1 : IsTotal String (fun x y => strUnits x ≤ strUnits y) :=
      ⟨fun a b => le_total _ _⟩
    haveI h2 : IsTrans String (fun x y => strUnits x ≤ strUnits y) :=
      ⟨fun a b c hab hbc => le_trans hab hbc⟩
    exact List.sorted_insertionSort _ _

/-- C5 (counterexample): the accumulation loop in src/index.ts:153-167 uses
a plain object, so a comment whose marker parses to a name inherited from
`Object.prototype` — here `toString` — makes `releases[name] ??= []` skip
its assignment and `releases[name].push(...)` throw `TypeError`: no TOC
block is rendered at all, rather than one with a `toString` bullet. -/
theorem c5_toc_rendering_counterexample :
    tocLines? [⟨"C1", "<!-- release-item:toString@v1.0.0 -->",
      "https://example.test/c/1"⟩] = none := by
  decide

/-- C5 (amended): provided no parsed release name collides with an
inherited `Object.prototype` property (otherwise the loop throws and the
invocation fails with no TOC rendered), the rendered TOC lines are the
header followed by one bullet per comment with a parseable release marker
(others silently ignored), grouped by name with groups in ascending name
order and original relative order inside each group (`specTocLines` spells
this out in the spec's words), and the emitted group order is sorted by
UTF-16 code-unit comparison. -/
theorem c5_toc_rendering (comments : List Comment)
    (hsafe : ∀ e ∈ tocEntries comments, e.name ∉ protoProps) :
    tocLines? comments = some (specTocLines comments) ∧
    List.Sorted (fun x y : String => strUnits x ≤ strUnits y)
      (sortKeys ((buildReleases comments).map Prod.fst)) := by
  obtain ⟨heq, hsort⟩ := tocLines_eq_specTocLines comments
  refine ⟨?_, hsort⟩
  rw [tocLines?_of_safe comments hsafe, heq]

theorem c5_toc_rendering_witness :
    tocLines? [⟨"C1", "<!-- release-item:mypkg@v1.0.0 -->", "https://example.test/c/1"⟩]
      = some (specTocLines
          [⟨"C1", "<!-- release-item:mypkg@v1.0.0 -->", "https://example.test/c/1"⟩]) ∧
    List.Sorted (fun x y : String => strUnits x ≤ strUnits y)
      (sortKeys ((buildReleases
          [⟨"C1", "<!-- release-item:mypkg@v1.0.0 -->", "https://example.test/c/1"⟩]).map
        Prod.fst)) :=
  c5_toc_rendering _ (by decide)

/-! ## The reconciler: claims C3, C4, C7, C9, C10

The orchestrating `main` (src/index.ts:54-190), embedded with the remote
store as an oracle: the `Remote` record carries whatever the store answers
(search results, the created discussion, the fetched comment list, the
comment objects echoed by the update/add mutations), and the reconciler
records every remote query/mutation it issues, in order, in a call trace.
The cycle id and display name are taken as parameters (their computation
from the release date is the cycle calculator studied in C1/C2, and the
search call's `from`/`to` bounds likewise). -/

/-- Model of `s.replace(/\s/g, '')` (src/index.ts:183): the body with every
JS whitespace character removed, used for change detection. -/
def stripWs (s : String) : List Char :=
  s.toList.filter (fun c => !jsWhitespace c)

/-- The action's configuration inputs (src/index.ts:15-18). -/
structure ActionConfig where
  owner : String
  repo : String
  fullName : String
  categorySlug : String
deriving DecidableEq

/-- The release-event payload fields `main` reads. -/
structure ReleaseEvent where
  action : String
  draft : Bool
  name : String
  tag_name : String
  body : String
  html_url : String
  isPrivate : Bool
deriving DecidableEq

/-- A remote discussion (`{id, title, body, url}`). -/
structure Discussion where
  id : String
  title : String
  body : String
  url : String
deriving DecidableEq

/-- A discussion category (`{id, name}`). -/
structure DiscussionCategory where
  id : String
  name : String
deriving DecidableEq

/-- A remote GraphQL call issued by one invocation, with the payload fields
the claims are about. -/
inductive RemoteCall where
  | getRepository (owner repo categorySlug : String)
  | searchDiscussions (repo category search : String)
  | createDiscussion (repositoryId categoryId title body : String)
  | getDiscussion (discussionId : String)
  | deleteComment (commentId : String)
  | updateComment (commentId body : String)
  | addComment (discussionId body : String)
  | updateDiscussion (discussionId body : String)
deriving DecidableEq

/-- The remote store's responses for one invocation. -/
structure Remote where
  repositoryId : String
  category : Option DiscussionCategory
  searchResult : List Discussion
  createdDiscussion : Discussion
  comments : List Comment
  updatedComment : Comment
  addedComment : Comment
deriving DecidableEq

inductive Outcome where
  | success
  | failed (msg : String)
deriving DecidableEq

/-- The observable result of one invocation: the ordered remote-call trace,
the outcome, and (when reached) the resolved discussion, the in-memory
comment list used for the TOC rebuild, and the spliced new body. -/
structure ReconcileResult where
  calls : List RemoteCall
  outcome : Outcome
  discussion : Option Discussion
  comments : List Comment
  newBody : Option String
deriving DecidableEq

/-- The release identity `"{release.name}@{release.tag_name}"`
(src/index.ts:117). -/
def releaseNameOf (ev : ReleaseEvent) : String := ev.name ++ "@" ++ ev.tag_name

/-- The release marker `"<!-- release-item:{releaseName} -->"`
(src/index.ts:118). -/
def releaseIdentifierOf (ev : ReleaseEvent) : String :=
  "<!-- release-item:" ++ releaseNameOf ev ++ " -->"

/-- The cycle marker `"<!-- release-cycle:{cycleId} -->"` (src/index.ts:71). -/
def cycleMarkerOf (cycleId : String) : String :=
  "<!-- release-cycle:" ++ cycleId ++ " -->"

/-- The comment body (src/index.ts:127-128): marker, heading with the
release title (a plain name for private repositories, a markdown link
otherwise), then the release notes. -/
def commentBodyOf (ev : ReleaseEvent) : String :=
  releaseIdentifierOf ev ++ "\n\n### "
    ++ (if ev.isPrivate then releaseNameOf ev
        else "[" ++ releaseNameOf ev ++ "](" ++ ev.html_url ++ ")")
    ++ "\n\n" ++ ev.body

/-- Discussion resolution (src/index.ts:99-115): the first search result
whose body contains the exact cycle marker, else the discussion returned by
the create mutation. -/
def resolveDiscussion (remote : Remote) (cycleIdentifier : String) : Discussion :=
  match remote.searchResult.find? (fun node => strIncludes node.body cycleIdentifier) with
  | some d => d
  | none => remote.createdDiscussion

/-- The remote call the discussion-resolution step issues: none when a
search result is reused, one create mutation otherwise. -/
def discussionCalls (remote : Remote) (category : DiscussionCategory)
    (cycleIdentifier cycleName : String) : List RemoteCall :=
  match remote.searchResult.find? (fun node => strIncludes node.body cycleIdentifier) with
  | some _ => []
  | none =>
    [RemoteCall.createDiscussion remote.repositoryId category.id
      ("Releases - " ++ cycleName)
      (cycleIdentifier ++ "\n\n<!-- START-RELEASE-TOC -->\n<!-- END-RELEASE-TOC -->")]

/-- Comment resolution (src/index.ts:126-147): find the comment containing
the release marker, then delete / update / create as the action demands,
mutating the in-memory list accordingly; returns the mutated list and the
mutation calls issued. -/
def resolveComment (isDeleteRequest : Bool) (comments : List Comment)
    (releaseIdentifier discussionId body : String)
    (updatedResp addedResp : Comment) : List Comment × List RemoteCall :=
  match comments.find? (fun node => strIncludes node.body releaseIdentifier) with
  | some comment =>
    if isDeleteRequest then
      (comments.filter (fun x => x.id != comment.id),
       [RemoteCall.deleteComment comment.id])
    else
      (comments.map (fun x => if x.id = updatedResp.id then updatedResp else x),
       [RemoteCall.updateComment comment.id body])
  | none =>
    if isDeleteRequest then (comments, [])
    else (comments ++ [addedResp], [RemoteCall.addComment discussionId body])

/-- The comment-resolution step of one invocation: `resolveComment` applied
to the fetched list, the release marker, the resolved discussion and the
mutation responses. -/
def commentResolution (ev : ReleaseEvent) (remote : Remote) (cycleId : String) :
    List Comment × List RemoteCall :=
  resolveComment (ev.action == "deleted") remote.comments (releaseIdentifierOf ev)
    (resolveDiscussion remote (cycleMarkerOf cycleId)).id (commentBodyOf ev)
    remote.updatedComment remote.addedComment

/-- The remote calls of one non-draft, category-found invocation up to and
including the comment mutation — everything issued before the TOC loop
runs. -/
def baseCalls (cfg : ActionConfig) (ev : ReleaseEvent) (remote : Remote)
    (category : DiscussionCategory) (cycleId cycleName : String) : List RemoteCall :=
  [RemoteCall.getRepository cfg.owner cfg.repo cfg.categorySlug]
    ++ [RemoteCall.searchDiscussions cfg.fullName category.name (cycleMarkerOf cycleId)]
    ++ discussionCalls remote category (cycleMarkerOf cycleId) cycleName
    ++ [RemoteCall.getDiscussion (resolveDiscussion remote (cycleMarkerOf cycleId)).id]
    ++ (commentResolution ev remote cycleId).2

/-- The message of the `TypeError` thrown by `releases[name].push(...)`
when the name is an inherited prototype property; the exact text is
host-specific and no claim depends on it, only on success versus failure. -/
def pushTypeErrorMsg : String := "releases[name].push is not a function"

/-- The non-draft, category-found path of `main` (src/index.ts:63-190).
When the TOC accumulation loop throws (a parsed release name collides with
an inherited `Object.prototype` property), the `try/catch` reports the
error via `setFailed` and no body splice or discussion update happens; the
`comments` field still records the in-memory list the loop consumed, since
the comment-resolution step completed before the throw. -/
def reconcileBody (cfg : ActionConfig) (ev : ReleaseEvent) (remote : Remote)
    (category : DiscussionCategory) (cycleId cycleName : String) : ReconcileResult :=
  let discussion := resolveDiscussion remote (cycleMarkerOf cycleId)
  match tocMarkdown? (commentResolution ev remote cycleId).1 with
  | none =>
    ⟨baseCalls cfg ev remote category cycleId cycleName,
      Outcome.failed pushTypeErrorMsg, some discussion,
      (commentResolution ev remote cycleId).1, none⟩
  | some toc =>
    let newBody := replaceTocRegion discussion.body toc
    ⟨baseCalls cfg ev remote category cycleId cycleName
        ++ (if stripWs newBody ≠ stripWs discussion.body
            then [RemoteCall.updateDiscussion discussion.id newBody] else []),
      Outcome.success, some discussion,
      (commentResolution ev remote cycleId).1, some newBody⟩

/-- One invocation of `main` (src/index.ts:54-190): a draft release returns
before any remote call; a missing category fails after the repository
query; otherwise the full reconciliation runs (and can itself fail inside
the TOC loop, see `reconcileBody`). -/
def reconcile (cfg : ActionConfig) (ev : ReleaseEvent) (remote : Remote)
    (cycleId cycleName : String) : ReconcileResult :=
  if ev.draft then ⟨[], Outcome.success, none, [], none⟩
  else
    match remote.category with
    | none =>
      ⟨[RemoteCall.getRepository cfg.owner cfg.repo cfg.categorySlug],
        Outcome.failed ("Category \"" ++ cfg.categorySlug
          ++ "\" not found, please ensure the category slug is correct."),
        none, [], none⟩
    | some category => reconcileBody cfg ev remote category cycleId cycleName

theorem reconcile_eq (cfg : ActionConfig) (ev : ReleaseEvent) (remote : Remote)
    (cycleId cycleName : String) (cat : DiscussionCategory)
    (hd : ev.draft = false) (hc : remote.category = some cat) :
    reconcile cfg ev remote cycleId cycleName
      = reconcileBody cfg ev remote cat cycleId cycleName := by
  unfold reconcile
  rw [hd, hc]
  simp

theorem reconcileBody_discussion (cfg : ActionConfig) (ev : ReleaseEvent) (remote : Remote)
    (cat : DiscussionCategory) (cycleId cycleName : String) :
    (reconcileBody cfg ev remote cat cycleId cycleName).discussion
      = some (resolveDiscussion remote (cycleMarkerOf cycleId)) := by
  simp only [reconcileBody]
  cases tocMarkdown? (commentResolution ev remote cycleId).1 <;> rfl

theorem reconcileBody_comments (cfg : ActionConfig) (ev : ReleaseEvent) (remote : Remote)
    (cat : DiscussionCategory) (cycleId cycleName : String) :
    (reconcileBody cfg ev remote cat cycleId cycleName).comments
      = (commentResolution ev remote cycleId).1 := by
  simp only [reconcileBody]
  cases tocMarkdown? (commentResolution ev remote cycleId).1 <;> rfl

theorem mem_reconcileBody_calls (cfg : ActionConfig) (ev : ReleaseEvent) (remote : Remote)
    (cat : DiscussionCategory) (cycleId cycleName : String) (x : RemoteCall)
    (h : x ∈ baseCalls cfg ev remote cat cycleId cycleName) :
    x ∈ (reconcileBody cfg ev remote cat cycleId cycleName).calls := by
  simp only [reconcileBody]
  cases tocMarkdown? (commentResolution ev remote cycleId).1 with
  | none => exact h
  | some toc => exact List.mem_append_left _ h

theorem reconcileBody_calls_none (cfg : ActionConfig) (ev : ReleaseEvent) (remote : Remote)
    (cat : DiscussionCategory) (cycleId cycleName : String)
    (htm : tocMarkdown? (commentResolution ev remote cycleId).1 = none) :
    (reconcileBody cfg ev remote cat cycleId cycleName).calls
      = baseCalls cfg ev remote cat cycleId cycleName := by
  simp only [reconcileBody]
  rw [htm]

theorem reconcileBody_calls_some (cfg : ActionConfig) (ev : ReleaseEvent) (remote : Remote)
    (cat : DiscussionCategory) (cycleId cycleName : String) (toc : String)
    (htm : tocMarkdown? (commentResolution ev remote cycleId).1 = some toc) :
    (reconcileBody cfg ev remote cat cycleId cycleName).calls
      = baseCalls cfg ev remote cat cycleId cycleName
        ++ (if stripWs (replaceTocRegion
                (resolveDiscussion remote (cycleMarkerOf cycleId)).body toc)
              ≠ stripWs (resolveDiscussion remote (cycleMarkerOf cycleId)).body
            then [RemoteCall.updateDiscussion
                (resolveDiscussion remote (cycleMarkerOf cycleId)).id
                (replaceTocRegion (resolveDiscussion remote (cycleMarkerOf cycleId)).body toc)]
            else []) := by
  simp only [reconcileBody]
  rw [htm]

theorem reconcileBody_success (cfg : ActionConfig) (ev : ReleaseEvent) (remote : Remote)
    (cat : DiscussionCategory) (cycleId cycleName : String) (toc : String)
    (htm : tocMarkdown? (commentResolution ev remote cycleId).1 = some toc) :
    (reconcileBody cfg ev remote cat cycleId cycleName).outcome = Outcome.success ∧
    (reconcileBody cfg ev remote cat cycleId cycleName).newBody
      = some (replaceTocRegion (resolveDiscussion remote (cycleMarkerOf cycleId)).body toc) := by
  simp only [reconcileBody]
  rw [htm]
  exact ⟨rfl, rfl⟩

/-- C9: for a draft release the invocation succeeds with zero remote calls
(so the remote discussion/comment state is untouched). -/
theorem c9_draft_no_calls (cfg : ActionConfig) (ev : ReleaseEvent) (remote : Remote)
    (cycleId cycleName : String) (hd : ev.draft = true) :
    (reconcile cfg ev remote cycleId cycleName).calls = [] ∧
    (reconcile cfg ev remote cycleId cycleName).outcome = Outcome.success := by
  unfold reconcile
  rw [hd]
  simp

theorem c9_draft_no_calls_witness :
    (reconcile ⟨"magicbell", "example", "magicbell/example", "releases"⟩
        ⟨"created", true, "mypkg", "v1.0.0", "notes", "https://example.test/r/1", false⟩
        ⟨"R1", none, [], ⟨"D1", "t", "b", "u"⟩, [], ⟨"C1", "b1", "u1"⟩, ⟨"C2", "b2", "u2"⟩⟩
        "2024W11" "2024 Week 11").calls = [] ∧
    (reconcile ⟨"magicbell", "example", "magicbell/example", "releases"⟩
        ⟨"created", true, "mypkg", "v1.0.0", "notes", "https://example.test/r/1", false⟩
        ⟨"R1", none, [], ⟨"D1", "t", "b", "u"⟩, [], ⟨"C1", "b1", "u1"⟩, ⟨"C2", "b2", "u2"⟩⟩
        "2024W11" "2024 Week 11").outcome = Outcome.success :=
  c9_draft_no_calls _ _ _ _ _ rfl

/-- C3: during discussion resolution a search result is accepted only when
its body contains the exact cycle marker; when none does, a discussion is
created with title `"Releases - {cycleName}"` and the exact initial body
`"{cycleMarker}\n\n<!-- START-RELEASE-TOC -->\n<!-- END-RELEASE-TOC -->"`. -/
theorem c3_find_or_create_discussion (cfg : ActionConfig) (ev : ReleaseEvent)
    (remote : Remote) (cycleId cycleName : String) (cat : DiscussionCategory)
    (hd : ev.draft = false) (hc : remote.category = some cat) :
    (∀ d, remote.searchResult.find?
          (fun node => strIncludes node.body (cycleMarkerOf cycleId)) = some d →
        (reconcile cfg ev remote cycleId cycleName).discussion = some d ∧
        strIncludes d.body (cycleMarkerOf cycleId) = true) ∧
    (remote.searchResult.find?
          (fun node => strIncludes node.body (cycleMarkerOf cycleId)) = none →
        (reconcile cfg ev remote cycleId cycleName).discussion
            = some remote.createdDiscussion ∧
        RemoteCall.createDiscussion remote.repositoryId cat.id
            ("Releases - " ++ cycleName)
            (cycleMarkerOf cycleId
              ++ "\n\n<!-- START-RELEASE-TOC -->\n<!-- END-RELEASE-TOC -->")
          ∈ (reconcile cfg ev remote cycleId cycleName).calls) := by
  rw [reconcile_eq cfg ev remote cycleId cycleName cat hd hc]
  constructor
  · intro d hf
    have hpd := List.find?_some hf
    refine ⟨?_, by simpa using hpd⟩
    rw [reconcileBody_discussion]
    simp [resolveDiscussion, hf]
  · intro hf
    constructor
    · rw [reconcileBody_discussion]
      simp [resolveDiscussion, hf]
    · apply mem_reconcileBody_calls
      simp [baseCalls, discussionCalls, hf]

theorem c3_find_or_create_discussion_witness :
    (reconcile ⟨"magicbell", "example", "magicbell/example", "releases"⟩
        ⟨"created", false, "mypkg", "v1.0.0", "notes", "https://example.test/r/1", false⟩
        ⟨"R1", some ⟨"CAT1", "Releases"⟩, [], ⟨"D1", "t", "b", "u"⟩, [],
          ⟨"C1", "b1", "u1"⟩, ⟨"C2", "b2", "u2"⟩⟩
        "2024W11" "2024 Week 11").discussion = some ⟨"D1", "t", "b", "u"⟩ ∧
    RemoteCall.createDiscussion "R1" "CAT1" ("Releases - " ++ "2024 Week 11")
        (cycleMarkerOf "2024W11" ++ "\n\n<!-- START-RELEASE-TOC -->\n<!-- END-RELEASE-TOC -->")
      ∈ (reconcile ⟨"magicbell", "example", "magicbell/example", "releases"⟩
        ⟨"created", false, "mypkg", "v1.0.0", "notes", "https://example.test/r/1", false⟩
        ⟨"R1", some ⟨"CAT1", "Releases"⟩, [], ⟨"D1", "t", "b", "u"⟩, [],
          ⟨"C1", "b1", "u1"⟩, ⟨"C2", "b2", "u2"⟩⟩
        "2024W11" "2024 Week 11").calls :=
  (c3_find_or_create_discussion _ _ _ _ _ ⟨"CAT1", "Releases"⟩ rfl rfl).2 rfl

/-- C4 (counterexample): a delete-action invocation with no matching
comment is *not* always a successful soft no-op: when some fetched comment
parses to a release name inherited from `Object.prototype` (here
`toString`), the TOC loop throws `TypeError` and the invocation fails. -/
theorem c4_delete_action_counterexample :
    (reconcile ⟨"magicbell", "example", "magicbell/example", "releases"⟩
        ⟨"deleted", false, "mypkg", "v1.0.0", "notes", "https://example.test/r/1", false⟩
        ⟨"R1", some ⟨"CAT1", "Releases"⟩,
          [⟨"D1", "t", "<!-- release-cycle:2024W11 -->", "u"⟩],
          ⟨"D1", "t", "<!-- release-cycle:2024W11 -->", "u"⟩,
          [⟨"C7", "<!-- release-item:toString@v2.0.0 -->", "u7"⟩],
          ⟨"C1", "x", "u1"⟩, ⟨"C2", "y", "u2"⟩⟩
        "2024W11" "2024 Week 11").outcome ≠ Outcome.success := by
  decide

/-- C4 (amended): on a delete-action invocation, a matching comment is
deleted remotely and removed from the in-memory comment list before the
TOC rebuild; if no comment matches, no deletion call is issued and the
list is untouched, and — provided no fetched comment parses to a release
name colliding with an inherited `Object.prototype` property (otherwise
the TOC loop throws `TypeError` and the invocation fails) — the invocation
proceeds to TOC reconciliation and succeeds. -/
theorem c4_delete_action (cfg : ActionConfig) (ev : ReleaseEvent) (remote : Remote)
    (cycleId cycleName : String) (cat : DiscussionCategory)
    (hd : ev.draft = false) (hc : remote.category = some cat)
    (ha : ev.action = "deleted") :
    (∀ c, remote.comments.find?
          (fun node => strIncludes node.body (releaseIdentifierOf ev)) = some c →
        RemoteCall.deleteComment c.id ∈ (reconcile cfg ev remote cycleId cycleName).calls ∧
        ∀ x ∈ (reconcile cfg ev remote cycleId cycleName).comments, x.id ≠ c.id) ∧
    (remote.comments.find?
          (fun node => strIncludes node.body (releaseIdentifierOf ev)) = none →
        (∀ cid, RemoteCall.deleteComment cid
            ∉ (reconcile cfg ev remote cycleId cycleName).calls) ∧
        (reconcile cfg ev remote cycleId cycleName).comments = remote.comments ∧
        ((∀ e ∈ tocEntries remote.comments, e.name ∉ protoProps) →
          (reconcile cfg ev remote cycleId cycleName).outcome = Outcome.success ∧
          (reconcile cfg ev remote cycleId cycleName).newBody ≠ none)) := by
  rw [reconcile_eq cfg ev remote cycleId cycleName cat hd hc]
  have hdel : (ev.action == "deleted") = true := by simp [ha]
  constructor
  · intro c hf
    constructor
    · apply mem_reconcileBody_calls
      simp [baseCalls, commentResolution, resolveComment, hf, hdel]
    · intro x hx
      rw [reconcileBody_comments] at hx
      simp [commentResolution, resolveComment, hf, hdel, List.mem_filter] at hx
      exact hx.2
  · intro hf
    have hres : commentResolution ev remote cycleId = (remote.comments, []) := by
      simp [commentResolution, resolveComment, hf, hdel]
    have hbase : ∀ cid, RemoteCall.deleteComment cid
        ∉ baseCalls cfg ev remote cat cycleId cycleName := by
      intro cid hmem
      simp only [baseCalls, List.mem_append] at hmem
      rcases hmem with (((h | h) | h) | h) | h
      · simp at h
      · simp at h
      · unfold discussionCalls at h
        cases hsd : remote.searchResult.find?
            (fun node => strIncludes node.body (cycleMarkerOf cycleId)) <;>
          rw [hsd] at h <;> simp at h
      · simp at h
      · rw [hres] at h
        simp at h
    refine ⟨?_, ?_, ?_⟩
    · intro cid hmem
      cases htm : tocMarkdown? (commentResolution ev remote cycleId).1 with
      | none =>
        rw [reconcileBody_calls_none cfg ev remote cat cycleId cycleName htm] at hmem
        exact hbase cid hmem
      | some toc =>
        rw [reconcileBody_calls_some cfg ev remote cat cycleId cycleName toc htm] at hmem
        rcases List.mem_append.mp hmem with h | h
        · exact hbase cid h
        · split at h <;> simp at h
    · rw [reconcileBody_comments, hres]
    · intro hsafe
      have hsafe1 : ∀ e ∈ tocEntries (commentResolution ev remote cycleId).1,
          e.name ∉ protoProps := by
        rw [hres]
        exact hsafe
      have htm := tocMarkdown?_of_safe _ hsafe1
      obtain ⟨ho, hn⟩ := reconcileBody_success cfg ev remote cat cycleId cycleName _ htm
      rw [ho, hn]
      simp

theorem resolveComment_no_updateDiscussion (isDel : Bool) (comments : List Comment)
    (relId did body : String) (u a : Comment) (i b : String) :
    RemoteCall.updateDiscussion i b
      ∉ (resolveComment isDel comments relId did body u a).2 := by
  unfold resolveComment
  cases comments.find? (fun node => strIncludes node.body relId) <;>
    cases isDel <;> simp

theorem commentResolution_no_updateDiscussion (ev : ReleaseEvent) (remote : Remote)
    (cycleId : String) (i b : String) :
    RemoteCall.updateDiscussion i b ∉ (commentResolution ev remote cycleId).2 := by
  simp only [commentResolution]
  exact resolveComment_no_updateDiscussion _ _ _ _ _ _ _ _ _

def isUpdateDiscussionCall : RemoteCall → Bool
  | RemoteCall.updateDiscussion _ _ => true
  | _ => false

def protoComment : Comment := ⟨"C7", "<!-- release-item:toString@v2.0.0 -->", "u7"⟩

def protoTocBody : String :=
  "<!-- release-cycle:2024W11 -->\n\n<!-- START-RELEASE-TOC -->\n<!-- END-RELEASE-TOC -->"

def protoRemote : Remote :=
  ⟨"R1", some ⟨"CAT1", "Releases"⟩, [⟨"D1", "t", protoTocBody, "u"⟩],
    ⟨"D1", "t", protoTocBody, "u"⟩, [protoComment], ⟨"C1", "x", "u1"⟩, ⟨"C2", "y", "u2"⟩⟩

/-- C7 (counterexample): with a fetched comment parsing to the release name
`toString` (inherited from `Object.prototype`), the TOC loop throws: even
though splicing the would-be TOC into the discussion body changes it modulo
whitespace, the trace contains no `updateDiscussion` call and the invocation
fails, so "update iff changed" does not hold unconditionally. -/
theorem c7_update_iff_changed_counterexample :
    ((reconcile ⟨"magicbell", "example", "magicbell/example", "releases"⟩
        ⟨"deleted", false, "mypkg", "v1.0.0", "notes", "https://example.test/r/1", false⟩
        protoRemote "2024W11" "2024 Week 11").calls.countP isUpdateDiscussionCall = 0) ∧
    (reconcile ⟨"magicbell", "example", "magicbell/example", "releases"⟩
        ⟨"deleted", false, "mypkg", "v1.0.0", "notes", "https://example.test/r/1", false⟩
        protoRemote "2024W11" "2024 Week 11").outcome ≠ Outcome.success ∧
    stripWs (replaceTocRegion protoTocBody (tocMarkdown [protoComment]))
      ≠ stripWs protoTocBody := by
  decide

/-- C7 (amended): provided no comment in the post-resolution list parses to
a release name colliding with an inherited `Object.prototype` property
(otherwise the TOC loop throws and no update is issued), a remote
discussion-body update is issued iff the old and the newly spliced bodies
differ after stripping all whitespace, and any update call in the trace
carries exactly the resolved discussion's id and the spliced body. -/
theorem c7_update_iff_changed (cfg : ActionConfig) (ev : ReleaseEvent) (remote : Remote)
    (cycleId cycleName : String) (cat : DiscussionCategory)
    (hd : ev.draft = false) (hc : remote.category = some cat)
    (hsafe : ∀ e ∈ tocEntries (reconcile cfg ev remote cycleId cycleName).comments,
        e.name ∉ protoProps) :
    ∀ d nb, (reconcile cfg ev remote cycleId cycleName).discussion = some d →
      (reconcile cfg ev remote cycleId cycleName).newBody = some nb →
      ((RemoteCall.updateDiscussion d.id nb
          ∈ (reconcile cfg ev remote cycleId cycleName).calls)
        ↔ stripWs nb ≠ stripWs d.body) ∧
      (∀ i b, RemoteCall.updateDiscussion i b
          ∈ (reconcile cfg ev remote cycleId cycleName).calls → i = d.id ∧ b = nb) := by
  rw [reconcile_eq cfg ev remote cycleId cycleName cat hd hc] at hsafe ⊢
  rw [reconcileBody_comments] at hsafe
  have htm := tocMarkdown?_of_safe _ hsafe
  intro d nb hdisc hnb
  rw [reconcileBody_discussion] at hdisc
  obtain ⟨-, hnb2⟩ := reconcileBody_success cfg ev remote cat cycleId cycleName _ htm
  rw [hnb2] at hnb
  injection hdisc with hdisc
  injection hnb with hnb
  subst hdisc
  subst hnb
  rw [reconcileBody_calls_some cfg ev remote cat cycleId cycleName _ htm]
  constructor
  · constructor
    · intro hmem
      by_contra hcond
      rw [if_neg (not_not_intro hcond), List.append_nil] at hmem
      simp only [baseCalls, List.mem_append] at hmem
      rcases hmem with (((h | h) | h) | h) | h
      · simp at h
      · simp at h
      · unfold discussionCalls at h
        cases hsd : remote.searchResult.find?
            (fun node => strIncludes node.body (cycleMarkerOf cycleId)) <;>
          rw [hsd] at h <;> simp at h
      · simp at h
      · exact commentResolution_no_updateDiscussion _ _ _ _ _ h
    · intro hcond
      rw [if_pos hcond]
      simp
  · intro i b hmem
    rcases List.mem_append.mp hmem with h | h
    · exfalso
      simp only [baseCalls, List.mem_append] at h
      rcases h with (((h | h) | h) | h) | h
      · simp at h
      · simp at h
      · unfold discussionCalls at h
        cases hsd : remote.searchResult.find?
            (fun node => strIncludes node.body (cycleMarkerOf cycleId)) <;>
          rw [hsd] at h <;> simp at h
      · simp at h
      · exact commentResolution_no_updateDiscussion _ _ _ _ _ h
    · split at h
      · simp only [List.mem_singleton] at h
        have h1 := congrArg (fun c => match c with
          | RemoteCall.updateDiscussion x _ => x | _ => "") h
        have h2 := congrArg (fun c => match c with
          | RemoteCall.updateDiscussion _ y => y | _ => "") h
        exact ⟨h1, h2⟩
      · simp at h

def isGetDiscussionCall : RemoteCall → Bool
  | RemoteCall.getDiscussion _ => true
  | _ => false

theorem resolveComment_countP_getDiscussion (isDel : Bool) (comments : List Comment)
    (relId did body : String) (u a : Comment) :
    ((resolveComment isDel comments relId did body u a).2).countP isGetDiscussionCall
      = 0 := by
  unfold resolveComment
  cases comments.find? (fun node => strIncludes node.body relId) <;>
    cases isDel <;> simp [isGetDiscussionCall]

theorem commentResolution_countP_getDiscussion (ev : ReleaseEvent) (remote : Remote)
    (cycleId : String) :
    ((commentResolution ev remote cycleId).2).countP isGetDiscussionCall = 0 := by
  simp only [commentResolution]
  exact resolveComment_countP_getDiscussion _ _ _ _ _ _ _

/-- Replacing the unique comment whose id matches the update response
produces a list containing the response exactly once and (when the body
actually changed) no copy of the old comment. -/
theorem count_map_replace (comments : List Comment) (u c : Comment)
    (hmem : c ∈ comments) (hid : u.id = c.id)
    (hids : (comments.map Comment.id).Nodup) :
    ((comments.map (fun x => if x.id = u.id then u else x)).count u = 1) ∧
    (c ≠ u → c ∉ comments.map (fun x => if x.id = u.id then u else x)) := by
  induction comments with
  | nil => simp at hmem
  | cons a rest ih =>
    rw [List.map_cons] at hids
    have hnotin : a.id ∉ rest.map Comment.id := (List.nodup_cons.mp hids).1
    have hrestnodup := (List.nodup_cons.mp hids).2
    rcases List.mem_cons.mp hmem with rfl | hmem'
    · have hhead : (if c.id = u.id then u else c) = u := by rw [if_pos hid.symm]
      have hucount : rest.map (fun x => if x.id = u.id then u else x) = rest := by
        conv_rhs => rw [← List.map_id rest]
        apply List.map_congr_left
        intro x hx
        have hxid : x.id ≠ u.id := by
          rw [hid]
          intro hxc
          exact hnotin (hxc ▸ List.mem_map_of_mem Comment.id hx)
        simp [hxid]
      rw [List.map_cons, hhead, hucount]
      have hcz : rest.count u = 0 := by
        apply List.count_eq_zero.mpr
        intro hu
        exact hnotin (hid ▸ List.mem_map_of_mem Comment.id hu)
      constructor
      · rw [List.count_cons_self, hcz]
      · intro hne hcmem
        rcases List.mem_cons.mp hcmem with h | h
        · exact hne h
        · exact hnotin (List.mem_map_of_mem Comment.id h)
    · have haid : a.id ≠ c.id := by
        intro hac
        exact hnotin (hac ▸ List.mem_map_of_mem Comment.id hmem')
      have hhead : (if a.id = u.id then u else a) = a := by
        rw [if_neg (by rw [hid]; exact haid)]
      have hane : u ≠ a := by
        intro hua
        apply haid
        rw [← hua, hid]
      obtain ⟨ihc, ihm⟩ := ih hmem' hrestnodup
      rw [List.map_cons, hhead]
      constructor
      · rw [List.count_cons_of_ne hane, ihc]
      · intro hne hcmem
        rcases List.mem_cons.mp hcmem with h | h
        · exact haid (congrArg Comment.id h.symm)
        · exact ihm hne h

/-- C10: the comment list used for the TOC rebuild is the in-memory list
mutated by the comment-resolution step, fetched exactly once (a single
`getDiscussion` call in the whole trace, no re-fetch): a created comment is
appended and appears exactly once, an updated comment replaces its old
version in place (same length, the response exactly once, the old version
gone when it differs), and a deleted comment's id appears zero times.  The
store-side assumptions are the oracle's well-formedness: distinct comment
ids, a fresh id for the added comment, and the update mutation echoing the
updated comment's id. -/
theorem c10_in_memory_mutation (cfg : ActionConfig) (ev : ReleaseEvent) (remote : Remote)
    (cycleId cycleName : String) (cat : DiscussionCategory)
    (hd : ev.draft = false) (hc : remote.category = some cat)
    (hids : (remote.comments.map Comment.id).Nodup)
    (hfresh : remote.addedComment.id ∉ remote.comments.map Comment.id) :
    ((reconcile cfg ev remote cycleId cycleName).calls.countP isGetDiscussionCall = 1) ∧
    (ev.action ≠ "deleted" →
      remote.comments.find?
          (fun node => strIncludes node.body (releaseIdentifierOf ev)) = none →
      (reconcile cfg ev remote cycleId cycleName).comments
          = remote.comments ++ [remote.addedComment] ∧
      (reconcile cfg ev remote cycleId cycleName).comments.count remote.addedComment = 1) ∧
    (∀ c, ev.action ≠ "deleted" →
      remote.comments.find?
          (fun node => strIncludes node.body (releaseIdentifierOf ev)) = some c →
      remote.updatedComment.id = c.id →
      (reconcile cfg ev remote cycleId cycleName).comments.count remote.updatedComment = 1 ∧
      (c ≠ remote.updatedComment →
        c ∉ (reconcile cfg ev remote cycleId cycleName).comments) ∧
      (reconcile cfg ev remote cycleId cycleName).comments.length
          = remote.comments.length) ∧
    (∀ c, ev.action = "deleted" →
      remote.comments.find?
          (fun node => strIncludes node.body (releaseIdentifierOf ev)) = some c →
      ∀ x ∈ (reconcile cfg ev remote cycleId cycleName).comments, x.id ≠ c.id) := by
  rw [reconcile_eq cfg ev remote cycleId cycleName cat hd hc]
  refine ⟨?_, ?_, ?_, ?_⟩
  · have hbase : (baseCalls cfg ev remote cat cycleId cycleName).countP
        isGetDiscussionCall = 1 := by
      simp only [baseCalls, List.countP_append]
      rw [commentResolution_countP_getDiscussion]
      have h1 : (discussionCalls remote cat (cycleMarkerOf cycleId) cycleName).countP
          isGetDiscussionCall = 0 := by
        unfold discussionCalls
        cases hsd : remote.searchResult.find?
            (fun node => strIncludes node.body (cycleMarkerOf cycleId)) <;>
          simp [isGetDiscussionCall]
      rw [h1]
      simp [isGetDiscussionCall]
    cases htm : tocMarkdown? (commentResolution ev remote cycleId).1 with
    | none =>
      rw [reconcileBody_calls_none cfg ev remote cat cycleId cycleName htm]
      exact hbase
    | some toc =>
      rw [reconcileBody_calls_some cfg ev remote cat cycleId cycleName toc htm,
        List.countP_append, hbase]
      split <;> simp [isGetDiscussionCall]
  · intro hne hf
    have hbeq : (ev.action == "deleted") = false := by simpa using hne
    have hcomm : (reconcileBody cfg ev remote cat cycleId cycleName).comments
        = remote.comments ++ [remote.addedComment] := by
      rw [reconcileBody_comments]
      simp [commentResolution, resolveComment, hf, hbeq]
    refine ⟨hcomm, ?_⟩
    rw [hcomm, List.count_append]
    have hz : remote.comments.count remote.addedComment = 0 := by
      apply List.count_eq_zero.mpr
      intro hmem
      exact hfresh (List.mem_map_of_mem Comment.id hmem)
    rw [hz]
    simp
  · intro c hne hf hid
    have hbeq : (ev.action == "deleted") = false := by simpa using hne
    have hcomm : (reconcileBody cfg ev remote cat cycleId cycleName).comments
        = remote.comments.map
            (fun x => if x.id = remote.updatedComment.id then remote.updatedComment else x) := by
      rw [reconcileBody_comments]
      simp [commentResolution, resolveComment, hf, hbeq]
    have hmem : c ∈ remote.comments := List.mem_of_find?_eq_some hf
    obtain ⟨h1, h2⟩ := count_map_replace remote.comments remote.updatedComment c hmem hid hids
    rw [hcomm]
    exact ⟨h1, h2, List.length_map _ _⟩
  · intro c ha hf x hx
    have hbeq : (ev.action == "deleted") = true := by simpa using ha
    rw [reconcileBody_comments] at hx
    simp [commentResolution, resolveComment, hf, hbeq, List.mem_filter] at hx
    exact hx.2

/-! ## Concrete fixtures used by the closed instances below -/

def sampleBody : String :=
  "<!-- release-cycle:2024W11 -->\n\n<!-- START-RELEASE-TOC -->\n<!-- END-RELEASE-TOC -->"

def sampleDiscussion : Discussion :=
  ⟨"D1", "Releases - 2024 Week 11", sampleBody, "https://example.test/d/1"⟩

def sampleAdded : Comment :=
  ⟨"C2", "<!-- release-item:mypkg@v1.0.0 -->\n\n### mypkg@v1.0.0\n\nnotes",
    "https://example.test/c/2"⟩

def sampleConfig : ActionConfig := ⟨"magicbell", "example", "magicbell/example", "releases"⟩

def sampleEvent : ReleaseEvent :=
  ⟨"created", false, "mypkg", "v1.0.0", "notes", "https://example.test/r/1", false⟩

def sampleRemote : Remote :=
  ⟨"R1", some ⟨"CAT1", "Releases"⟩, [sampleDiscussion], sampleDiscussion, [],
    ⟨"C1", "x", "u1"⟩, sampleAdded⟩

def sampleDeleteEvent : ReleaseEvent :=
  ⟨"deleted", false, "mypkg", "v1.0.0", "notes", "https://example.test/r/1", false⟩

def sampleDelComment : Comment :=
  ⟨"C9", "<!-- release-item:mypkg@v1.0.0 -->\n\n### mypkg@v1.0.0\n\nnotes",
    "https://example.test/c/9"⟩

def sampleRemoteDel : Remote :=
  ⟨"R1", some ⟨"CAT1", "Releases"⟩, [sampleDiscussion], sampleDiscussion,
    [sampleDelComment], ⟨"C1", "x", "u1"⟩, sampleAdded⟩

theorem c4_delete_action_witness :
    RemoteCall.deleteComment "C9"
        ∈ (reconcile sampleConfig sampleDeleteEvent sampleRemoteDel
            "2024W11" "2024 Week 11").calls ∧
    ∀ x ∈ (reconcile sampleConfig sampleDeleteEvent sampleRemoteDel
            "2024W11" "2024 Week 11").comments, x.id ≠ "C9" := by
  have h := (c4_delete_action sampleConfig sampleDeleteEvent sampleRemoteDel
      "2024W11" "2024 Week 11" ⟨"CAT1", "Releases"⟩ rfl rfl rfl).1
      sampleDelComment (by decide)
  exact h

theorem c7_update_iff_changed_witness :
    (RemoteCall.updateDiscussion "D1"
        (replaceTocRegion sampleBody (tocMarkdown [sampleAdded]))
      ∈ (reconcile sampleConfig sampleEvent sampleRemote "2024W11" "2024 Week 11").calls)
      ↔ stripWs (replaceTocRegion sampleBody (tocMarkdown [sampleAdded]))
          ≠ stripWs sampleBody := by
  have h := (c7_update_iff_changed sampleConfig sampleEvent sampleRemote
      "2024W11" "2024 Week 11" ⟨"CAT1", "Releases"⟩ rfl rfl (by decide)) sampleDiscussion
      (replaceTocRegion sampleBody (tocMarkdown [sampleAdded])) (by decide) (by decide)
  exact h.1

theorem c10_in_memory_mutation_witness :
    ((reconcile sampleConfig sampleEvent sampleRemote "2024W11" "2024 Week 11").calls.countP
        isGetDiscussionCall = 1) ∧
    (reconcile sampleConfig sampleEvent sampleRemote "2024W11" "2024 Week 11").comments
        = [] ++ [sampleAdded] ∧
    (reconcile sampleConfig sampleEvent sampleRemote
        "2024W11" "2024 Week 11").comments.count sampleAdded = 1 := by
  have h := c10_in_memory_mutation sampleConfig sampleEvent sampleRemote
      "2024W11" "2024 Week 11" ⟨"CAT1", "Releases"⟩ rfl rfl (by decide) (by decide)
  have h2 := h.2.1 (by decide) rfl
  exact ⟨h.1, h2.1, h2.2⟩
